import Mathlib

/-!
Shallow embedding of the llmsgen frontend core (sitemap discovery and
traversal, FAQ extraction tiers, grouping and rendering) together with
proofs of the specification claims.  The JavaScript source operates on
strings, DOM documents and parsed JSON values; here strings are Lean
strings (with character-level helpers kept structurally recursive so the
kernel can evaluate them), DOM documents are records holding exactly the
projections the extractor code reads, and JSON values are an inductive
type standing for the output of JSON.parse.
-/

namespace Llmsgen

/-! ## Character-list string helpers (models of the JS string operations) -/

/-- Model of JavaScript String.prototype.trim on a character list:
drop whitespace from both ends. -/
def trimL (l : List Char) : List Char :=
  ((l.dropWhile Char.isWhitespace).reverse.dropWhile Char.isWhitespace).reverse

/-- Model of JavaScript String.prototype.trim. -/
def jsTrim (s : String) : String := String.mk (trimL s.data)

/-- Splitting a character list at every character satisfying the predicate;
adjacent separators produce empty pieces, as JavaScript split on a
single-character pattern does. -/
def splitChars (p : Char → Bool) : List Char → List (List Char)
  | [] => [[]]
  | c :: rest =>
    match splitChars p rest with
    | [] => if p c then [[], []] else [[c]]
    | h :: t => if p c then [] :: h :: t else (c :: h) :: t

/-- Model of JavaScript toLowerCase, restricted to the ASCII range that the
source code relies on. -/
def lowerL (l : List Char) : List Char := l.map Char.toLower

/-- Decides whether the first list is a prefix of the second. -/
def prefixAt : List Char → List Char → Bool
  | [], _ => true
  | _ :: _, [] => false
  | a :: as, b :: bs => a = b && prefixAt as bs

/-- Decides whether the pattern occurs as a contiguous substring. -/
def subOccurs (pat : List Char) : List Char → Bool
  | [] => prefixAt pat []
  | l@(_ :: rest) => prefixAt pat l || subOccurs pat rest

/-! ## Sitemap discovery (discoverSitemaps) -/

/-- Model of the line split robotsText.split of the regex matching an
optional carriage return followed by a newline: split at every newline and
drop one carriage return sitting at the end of each piece. -/
def splitLines (s : String) : List String :=
  (splitChars (fun c => c = '\n') s.data).map (fun l =>
    String.mk (match l.reverse with
      | '\r' :: r => r.reverse
      | _ => l))

/-- Model of the case-insensitive test of the anchored regex for the
sitemap prefix against the trimmed line. -/
def isSitemapLine (trimmed : String) : Bool :=
  prefixAt "sitemap:".data (lowerL trimmed.data)

/-- Model of trimmed.split at colons, dropping the first piece and
re-joining with colons: everything after the first colon (or the whole
string when it has no colon, a case the caller excludes). -/
def afterFirstColon (trimmed : String) : String :=
  match trimmed.data.dropWhile (fun c => c ≠ ':') with
  | [] => trimmed
  | _ :: rest => String.mk rest

/-- Value contributed by a robots.txt line, when it is a sitemap directive:
the trimmed everything-after-the-first-colon of the trimmed line. -/
def sitemapLineValue (line : String) : String :=
  jsTrim (afterFirstColon (jsTrim line))

/-- Processing of one robots.txt line: when the trimmed line starts
case-insensitively with the sitemap prefix and its trimmed after-colon
value is non-empty, the value is added to the accumulated set (insertion
order, set-style deduplication); other lines leave the set unchanged. -/
def sitemapStep (acc : List String) (line : String) : List String :=
  if isSitemapLine (jsTrim line) then
    if sitemapLineValue line ≠ "" then
      if sitemapLineValue line ∈ acc then acc else acc ++ [sitemapLineValue line]
    else acc
  else acc

/-- Sitemap candidate values collected from the robots.txt body. -/
def sitemapValuesOf (text : String) : List String :=
  (splitLines text).foldl sitemapStep []

/-- Model of discoverSitemaps.  robotsText is the fetch result, none on a
failed fetch; the source also skips parsing when the fetched text is the
empty string, since an empty string is falsy in JavaScript. -/
def discoverSitemaps (origin : String) (robotsText : Option String) : List String :=
  let sitemapUrls : List String :=
    match robotsText with
    | none => []
    | some text => if text = "" then [] else sitemapValuesOf text
  if sitemapUrls.length = 0 then [origin ++ "/sitemap.xml"] else sitemapUrls

lemma mem_sitemapStep {acc : List String} {line v : String} :
    v ∈ sitemapStep acc line ↔
      v ∈ acc ∨
        (v ≠ "" ∧ isSitemapLine (jsTrim line) = true ∧ sitemapLineValue line = v) := by
  unfold sitemapStep
  split
  · rename_i hsl
    split
    · rename_i hne
      split
      · rename_i hmem
        constructor
        · intro h; exact Or.inl h
        · rintro (h | ⟨hv, _, hval⟩)
          · exact h
          · rw [← hval]; exact hmem
      · rename_i hmem
        simp only [List.mem_append, List.mem_singleton]
        constructor
        · rintro (h | rfl)
          · exact Or.inl h
          · exact Or.inr ⟨hne, hsl, rfl⟩
        · rintro (h | ⟨hv, _, hval⟩)
          · exact Or.inl h
          · exact Or.inr hval.symm

    · rename_i hne
      push_neg at hne
      constructor
      · exact Or.inl
      · rintro (h | ⟨hv, _, hval⟩)
        · exact h
        · exact absurd (hval.symm.trans hne) hv
  · rename_i hsl
    constructor
    · exact Or.inl
    · rintro (h | ⟨_, hs, _⟩)
      · exact h
      · exact absurd hs hsl

lemma mem_foldl_sitemapStep (lines : List String) :
    ∀ (acc : List String) (v : String),
      v ∈ lines.foldl sitemapStep acc ↔
        v ∈ acc ∨
          ∃ line ∈ lines, v ≠ "" ∧ isSitemapLine (jsTrim line) = true ∧
            sitemapLineValue line = v := by
  induction lines with
  | nil => intro acc v; simp
  | cons l rest ih =>
    intro acc v
    rw [List.foldl_cons, ih, mem_sitemapStep]
    constructor
    · rintro ((h | ⟨hv, hs, hval⟩) | ⟨line, hm, hrest⟩)
      · exact Or.inl h
      · exact Or.inr ⟨l, List.mem_cons_self l rest, hv, hs, hval⟩
      · exact Or.inr ⟨line, List.mem_cons_of_mem l hm, hrest⟩
    · rintro (h | ⟨line, hm, hrest⟩)
      · exact Or.inl (Or.inl h)
      · rcases List.mem_cons.mp hm with rfl | hm
        · exact Or.inl (Or.inr hrest)
        · exact Or.inr ⟨line, hm, hrest⟩

lemma sitemapStep_nodup {acc : List String} {line : String} (h : acc.Nodup) :
    (sitemapStep acc line).Nodup := by
  unfold sitemapStep
  split
  · split
    · split
      · exact h
      · rename_i hmem
        simpa [List.nodup_append] using ⟨h, hmem⟩
    · exact h
  · exact h

lemma foldl_sitemapStep_nodup (lines : List String) :
    ∀ acc : List String, acc.Nodup → (lines.foldl sitemapStep acc).Nodup := by
  induction lines with
  | nil => intro acc h; exact h
  | cons l rest ih => intro acc h; exact ih _ (sitemapStep_nodup h)

/-- The claim that discoverSitemaps returns exactly the set of all trimmed
after-colon values of sitemap-directive lines fails when such a value is
empty: the source only collects non-empty values.  A robots.txt body that
is the single sitemap-directive line with nothing after the colon has the
value set containing only the empty string, yet discoverSitemaps falls
back to the conventional sitemap path instead of returning that set. -/
theorem discoverSitemaps_empty_value_counterexample :
    isSitemapLine (jsTrim "Sitemap:") = true ∧
    sitemapLineValue "Sitemap:" = "" ∧
    discoverSitemaps "https://x.com" (some "Sitemap:") =
      ["https://x.com/sitemap.xml"] ∧
    discoverSitemaps "https://x.com" (some "Sitemap:") ≠ [""] := by
  refine ⟨by decide, by decide, by decide, by decide⟩

/-- Amended claim for the sitemap discovery contract: the collected values
are exactly the non-empty trimmed after-colon values of lines whose
trimmed form starts case-insensitively with the sitemap prefix,
deduplicated (the returned list has no duplicates, and membership is
order-independent); when the collection is non-empty it is returned as-is,
and when it is empty — including a missing robots.txt, an empty body, or a
body with no sitemap directive carrying a non-empty value — the result is
exactly the one-element list holding the conventional sitemap path. -/
theorem discoverSitemaps_spec (origin text : String) :
    (sitemapValuesOf text).Nodup ∧
    (∀ v, v ∈ sitemapValuesOf text ↔
      ∃ line ∈ splitLines text, v ≠ "" ∧ isSitemapLine (jsTrim line) = true ∧
        sitemapLineValue line = v) ∧
    (sitemapValuesOf text ≠ [] →
      discoverSitemaps origin (some text) = sitemapValuesOf text) ∧
    (sitemapValuesOf text = [] →
      discoverSitemaps origin (some text) = [origin ++ "/sitemap.xml"]) ∧
    discoverSitemaps origin none = [origin ++ "/sitemap.xml"] := by
  refine ⟨foldl_sitemapStep_nodup _ _ List.nodup_nil, ?_, ?_, ?_, rfl⟩
  · intro v
    rw [sitemapValuesOf, mem_foldl_sitemapStep]
    simp
  · intro h
    unfold discoverSitemaps
    by_cases htext : text = ""
    · exfalso; apply h; rw [htext]; rfl
    · simp only [htext, if_false]
      rw [if_neg]
      simpa [List.length_eq_zero] using h
  · intro h
    unfold discoverSitemaps
    by_cases htext : text = ""
    · simp [htext]
    · simp [htext, h]

/-- Witness instantiating the amended sitemap discovery claim on a
concrete robots.txt body with one sitemap directive. -/
theorem discoverSitemaps_spec_witness :
    discoverSitemaps "https://x.com" (some "Sitemap: https://x.com/a.xml") =
      sitemapValuesOf "Sitemap: https://x.com/a.xml" :=
  (discoverSitemaps_spec "https://x.com" "Sitemap: https://x.com/a.xml").2.2.1
    (by decide)

/-- Claim C10: discoverSitemaps always returns at least one candidate URL
(the conventional-path fallback guarantees non-emptiness), for every
origin and every robots.txt fetch outcome; hence the length-zero check in
runUrlToLlmsFlow that reports that no sitemap URLs were discovered can
never fire. -/
theorem discoverSitemaps_never_empty (origin : String) (robotsText : Option String) :
    discoverSitemaps origin robotsText ≠ [] ∧
    (discoverSitemaps origin robotsText).length ≠ 0 := by
  have key : ∀ (l : List String) (d : String),
      (if l.length = 0 then [d] else l) ≠ [] := by
    intro l d
    split
    · simp
    · rename_i hlen
      intro hnil
      exact hlen (by rw [hnil]; rfl)
  have h : discoverSitemaps origin robotsText ≠ [] := by
    unfold discoverSitemaps
    exact key _ _
  exact ⟨h, fun hlen => h (List.length_eq_zero.mp hlen)⟩

/-! ## Group-name derivation (toTitleFromSlug, getGroupNameFromUrl) -/

/-- Simplified model of the WHATWG URL parser restricted to the only
projection getGroupNameFromUrl reads: the pathname of an absolute
hierarchical URL.  Parsing succeeds when the string has a scheme starting
with an ASCII letter, the scheme separator, and a non-empty authority;
the pathname runs from the first slash after the authority up to a query
or fragment delimiter, and a URL with no slash after the authority has
pathname the single slash. -/
def schemeSepSplit : List Char → Option (List Char × List Char)
  | [] => none
  | ':' :: '/' :: '/' :: rest => some ([], rest)
  | c :: rest => (schemeSepSplit rest).map (fun p => (c :: p.1, p.2))

/-- Pathname of an absolute URL under the simplified parser model, none
when parsing fails. -/
def urlPathname (url : String) : Option String :=
  match schemeSepSplit url.data with
  | none => none
  | some (scheme, rest) =>
    match scheme with
    | [] => none
    | c :: _ =>
      if !c.isAlpha then none
      else
        let auth := rest.takeWhile (fun c => ¬ (c = '/' ∨ c = '?' ∨ c = '#'))
        let afterAuth := rest.dropWhile (fun c => ¬ (c = '/' ∨ c = '?' ∨ c = '#'))
        if auth = [] then none
        else
          match afterAuth with
          | '/' :: _ => some (String.mk (afterAuth.takeWhile (fun c => ¬ (c = '?' ∨ c = '#'))))
          | _ => some "/"

/-- Model of the JavaScript capitalization of one slug part: uppercase the
first character and keep the remainder. -/
def capitalizeFirst (l : List Char) : List Char :=
  match l with
  | [] => []
  | c :: rest => c.toUpper :: rest

/-- Model of toTitleFromSlug: split on separator characters, drop empty
parts, capitalize each part, join with spaces. -/
def toTitleFromSlug (slug : String) : String :=
  if slug = "" then "" else
  String.mk (List.intercalate [' ']
    (((splitChars (fun c => c = '-' ∨ c = '_') slug.data).filter (· ≠ [])).map
      capitalizeFirst))


/-- Path normalization shared by the code model and the spec model:
JavaScript substitutes the root slash for an empty pathname and removes a
single trailing slash when the path is longer than the root. -/
def normalizePath (pathname : String) : List Char :=
  let pd0 := if pathname = "" then ['/'] else pathname.data
  if 1 < pd0.length ∧ pd0.getLast? = some '/' then pd0.dropLast else pd0

/-- Group name computed from the non-empty path segments: Page for at most
one segment, otherwise the Title-Cased second-to-last segment with Page as
fallback for an empty conversion. -/
def groupFromSegments (segments : List (List Char)) : String :=
  if segments.length ≤ 1 then "Page"
  else
    if toTitleFromSlug (String.mk (segments.getD (segments.length - 2) [])) = "" then
      "Page"
    else toTitleFromSlug (String.mk (segments.getD (segments.length - 2) []))

/-- Model of getGroupNameFromUrl: parse the URL, normalize the pathname,
split into non-empty segments and derive the group name; a URL-parse
failure falls back to Page. -/
def getGroupNameFromUrl (url : String) : String :=
  match urlPathname url with
  | none => "Page"
  | some pathname =>
    groupFromSegments
      ((splitChars (fun c => c = '/') (normalizePath pathname)).filter (· ≠ []))

/-- Maximal runs of non-separator characters, in order: the non-empty
pieces obtained when splitting at runs of separators. -/
def chunks (p : Char → Bool) : List Char → List (List Char)
  | [] => []
  | [c] => if p c then [] else [[c]]
  | c :: d :: rest =>
    if p c then chunks p (d :: rest)
    else
      if p d then [c] :: chunks p (d :: rest)
      else
        match chunks p (d :: rest) with
        | [] => [[c]]
        | h :: t => (c :: h) :: t

/-- Modelled from the spec: the slug-to-Title-Case conversion described as
splitting on runs of separator characters, uppercasing each part's first
character, and joining with spaces. -/
def titleCaseSlugSpec (slug : String) : String :=
  String.mk (List.intercalate [' ']
    ((chunks (fun c => c = '-' ∨ c = '_') slug.data).map capitalizeFirst))

/-- Modelled from the spec: the group name described as the Title-Cased
segment immediately preceding the final slug segment, with the Page
default for at most one segment and the Page fallback for an empty
conversion. -/
def groupFromSegmentsSpec (segments : List (List Char)) : String :=
  if segments.length ≤ 1 then "Page"
  else
    if titleCaseSlugSpec (String.mk (segments.dropLast.getLastD [])) = "" then "Page"
    else titleCaseSlugSpec (String.mk (segments.dropLast.getLastD []))

/-- Modelled from the spec: the whole group-name derivation, with the
segments taken as the maximal runs of non-slash characters of the
normalized path. -/
def groupOfSpec (url : String) : String :=
  match urlPathname url with
  | none => "Page"
  | some pathname =>
    groupFromSegmentsSpec (chunks (fun c => c = '/') (normalizePath pathname))

lemma splitChars_cons (p : Char → Bool) (c : Char) (rest : List Char) :
    splitChars p (c :: rest) =
      match splitChars p rest with
      | [] => if p c then [[], []] else [[c]]
      | h :: t => if p c then [] :: h :: t else (c :: h) :: t := rfl

lemma chunks_cons₂ (p : Char → Bool) (c d : Char) (rest : List Char) :
    chunks p (c :: d :: rest) =
      if p c then chunks p (d :: rest)
      else
        if p d then [c] :: chunks p (d :: rest)
        else
          match chunks p (d :: rest) with
          | [] => [[c]]
          | h :: t => (c :: h) :: t := rfl

lemma splitChars_ne_nil (p : Char → Bool) (l : List Char) : splitChars p l ≠ [] := by
  cases l with
  | nil => simp [splitChars]
  | cons c rest =>
    rw [splitChars_cons]
    cases hsc : splitChars p rest with
    | nil => split_ifs <;> simp
    | cons a t => split_ifs <;> simp

lemma filter_splitChars_eq_chunks (p : Char → Bool) (l : List Char) :
    (splitChars p l).filter (· ≠ []) = chunks p l := by
  induction l with
  | nil => simp [splitChars, chunks]
  | cons c rest ih =>
    cases rest with
    | nil =>
      by_cases hc : p c <;> simp [splitChars, chunks, hc]
    | cons d rest2 =>
      obtain ⟨h, t, heq⟩ : ∃ h t, splitChars p (d :: rest2) = h :: t := by
        cases hsc : splitChars p (d :: rest2) with
        | nil => exact absurd hsc (splitChars_ne_nil p _)
        | cons h t => exact ⟨h, t, rfl⟩
      have hsplit : splitChars p (c :: d :: rest2) =
          if p c then [] :: h :: t else (c :: h) :: t := by
        rw [splitChars_cons, heq]
      by_cases hc : p c
      · rw [hsplit, if_pos hc, chunks_cons₂, if_pos hc, ← ih, heq]
        simp
      · rw [hsplit, if_neg hc, chunks_cons₂, if_neg hc]
        obtain ⟨h2, t2, heq2⟩ : ∃ h2 t2, splitChars p rest2 = h2 :: t2 := by
          cases hsc : splitChars p rest2 with
          | nil => exact absurd hsc (splitChars_ne_nil p _)
          | cons h2 t2 => exact ⟨h2, t2, rfl⟩
        have hsplit2 : splitChars p (d :: rest2) =
            if p d then [] :: h2 :: t2 else (d :: h2) :: t2 := by
          rw [splitChars_cons, heq2]
        by_cases hd : p d
        · rw [if_pos hd]
          rw [hsplit2, if_pos hd] at heq
          injection heq with hh ht
          subst hh; subst ht
          rw [← ih, hsplit2, if_pos hd]
          simp
        · rw [if_neg hd]
          rw [hsplit2, if_neg hd] at heq
          injection heq with hh ht
          subst hh; subst ht
          rw [← ih, hsplit2, if_neg hd]
          simp

lemma toTitleFromSlug_eq_spec (s : String) : toTitleFromSlug s = titleCaseSlugSpec s := by
  unfold toTitleFromSlug titleCaseSlugSpec
  by_cases hs : s = ""
  · subst hs
    rw [if_pos rfl]
    rfl
  · rw [if_neg hs, filter_splitChars_eq_chunks]

lemma getLastD_cons_of_ne_nil {α : Type} (a : α) (l : List α) (h : l ≠ []) (d : α) :
    (a :: l).getLastD d = l.getLastD d := by
  cases l with
  | nil => exact absurd rfl h
  | cons x xs => simp [List.getLastD_cons]

lemma getD_eq_dropLast_getLastD (l : List (List Char)) (hl : 2 ≤ l.length) :
    l.getD (l.length - 2) [] = l.dropLast.getLastD [] := by
  induction l with
  | nil => simp at hl
  | cons a t ih =>
    cases t with
    | nil => simp at hl
    | cons b t2 =>
      cases t2 with
      | nil => simp [List.getD]
      | cons c t3 =>
        have h2 : 2 ≤ (b :: c :: t3).length := by simp
        have harith : (a :: b :: c :: t3).length - 2 = ((b :: c :: t3).length - 2) + 1 := by
          simp
        rw [harith, List.getD_cons_succ, ih h2, List.dropLast_cons₂,
          List.dropLast_cons₂]
        exact (getLastD_cons_of_ne_nil a (b :: (c :: t3).dropLast) (by simp) []).symm

lemma groupFromSegments_eq_spec (segments : List (List Char)) :
    groupFromSegments segments = groupFromSegmentsSpec segments := by
  unfold groupFromSegments groupFromSegmentsSpec
  by_cases hlen : segments.length ≤ 1
  · rw [if_pos hlen, if_pos hlen]
  · rw [if_neg hlen, if_neg hlen, toTitleFromSlug_eq_spec,
      getD_eq_dropLast_getLastD _ (by omega)]

/-- Claim C4: the group name is derived exactly as the spec describes —
parse the URL, strip one trailing slash with the root staying a single
slash, split into non-empty segments, answer Page for at most one
segment, and otherwise the Title-Cased second-to-last segment with Page
as fallback for an empty conversion or a parse failure — and the four
pinned examples evaluate as the spec lists them. -/
theorem getGroupNameFromUrl_spec :
    (∀ url, getGroupNameFromUrl url = groupOfSpec url) ∧
    getGroupNameFromUrl "https://x.com/" = "Page" ∧
    getGroupNameFromUrl "https://x.com/about" = "Page" ∧
    getGroupNameFromUrl "https://x.com/blog/my-post" = "Blog" ∧
    getGroupNameFromUrl "https://x.com/blog/sub/my-post" = "Sub" := by
  refine ⟨?_, by decide, by decide, by decide, by decide⟩
  intro url
  unfold getGroupNameFromUrl groupOfSpec
  cases urlPathname url with
  | none => rfl
  | some pathname =>
    show groupFromSegments
        ((splitChars (fun c => c = '/') (normalizePath pathname)).filter (· ≠ [])) =
      groupFromSegmentsSpec (chunks (fun c => c = '/') (normalizePath pathname))
    rw [filter_splitChars_eq_chunks, groupFromSegments_eq_spec]

/-! ## Recursive sitemap traversal (extractUrlsFromSitemap) -/

/-- Parsed sitemap document as the traversal reads it: a sitemap index
holds the trimmed loc values of its sitemap child nodes, a URL sitemap
holds the trimmed loc values of its url child nodes (child nodes lacking
a loc with non-empty text are already absent, as the source skips them). -/
inductive SmDoc where
  | index (childLocs : List String)
  | urlset (locs : List String)

/-- Traversal state: the per-call visited set, the log of URLs passed to
the fetch helper (in fetch order), the page URLs collected so far, and a
flag that turns false only when the modelling fuel runs out. -/
structure SmState where
  visited : List String
  fetched : List String
  urls : List String
  ok : Bool

/-- Starting state of one extractUrlsFromSitemap call. -/
def initSmState : SmState := ⟨[], [], [], true⟩

/-- Recording of one fetch: the URL is added to the visited set and to the
log of URLs passed to the fetch helper. -/
def fetchMark (url : String) (st : SmState) : SmState :=
  { st with visited := url :: st.visited, fetched := st.fetched ++ [url] }

/-- Model of the inner processSitemap closure.  The sitemap graph is the
finite association list fm from sitemap URL to its parsed document, with a
missing key standing for a fetch or parse failure.  The source recursion
has no fuel; here fuel bounds only the depth of nested index expansions,
and the ok flag records whether the bound was ever hit, so proving that ok
stays true for a sufficient finite fuel is exactly a termination proof for
the original unbounded recursion. -/
def processSitemap (fm : List (String × SmDoc)) (fuel : Nat) (url : String)
    (st : SmState) : SmState :=
  if url ∈ st.visited then st
  else
    match fm.lookup url with
    | none => fetchMark url st
    | some (SmDoc.urlset locs) =>
      { fetchMark url st with urls := (fetchMark url st).urls ++ locs }
    | some (SmDoc.index childLocs) =>
      match fuel with
      | 0 => { fetchMark url st with ok := false }
      | f + 1 => childLocs.foldl (fun s c => processSitemap fm f c s) (fetchMark url st)

/-- Model of extractUrlsFromSitemap: run the traversal from the root
sitemap URL on a fresh visited set and deduplicate the collected URLs
keeping first occurrences, as building a set from the array does. -/
def extractUrlsFromSitemap (fm : List (String × SmDoc)) (fuel : Nat)
    (sitemapUrl : String) : List String :=
  (processSitemap fm fuel sitemapUrl initSmState).urls.eraseDups

/-- Number of sitemap documents of the graph not yet visited. -/
def unvisitedCount (fm : List (String × SmDoc)) (visited : List String) : Nat :=
  ((fm.map Prod.fst).filter (fun k => k ∉ visited)).length

lemma lookup_some_mem_keys {fm : List (String × SmDoc)} {url : String} {d : SmDoc}
    (h : fm.lookup url = some d) : url ∈ fm.map Prod.fst := by
  induction fm with
  | nil => simp [List.lookup] at h
  | cons p rest ih =>
    obtain ⟨k, v⟩ := p
    by_cases hk : url = k
    · simp [hk]
    · have hbe : (url == k) = false := beq_false_of_ne hk
      rw [List.lookup, hbe] at h
      exact List.mem_cons_of_mem _ (ih h)

lemma filter_notMem_length_mono (keys : List String) :
    ∀ v w : List String, (∀ x, x ∈ v → x ∈ w) →
      (keys.filter (fun k => k ∉ w)).length ≤ (keys.filter (fun k => k ∉ v)).length := by
  induction keys with
  | nil => intro v w h; simp
  | cons u rest ih =>
    intro v w h
    simp only [List.filter_cons]
    by_cases huw : u ∈ w
    · have h1 : decide (u ∉ w) = false := by simp [huw]
      rw [h1]
      by_cases huv : u ∈ v
      · have h2 : decide (u ∉ v) = false := by simp [huv]
        rw [h2]
        exact ih v w h
      · have h2 : decide (u ∉ v) = true := by simp [huv]
        rw [h2]
        simp only [if_true, if_false, Bool.false_eq_true, List.length_cons]
        exact Nat.le_succ_of_le (ih v w h)
    · have huv : u ∉ v := fun hm => huw (h u hm)
      have h1 : decide (u ∉ w) = true := by simp [huw]
      have h2 : decide (u ∉ v) = true := by simp [huv]
      rw [h1, h2]
      simp only [if_true, List.length_cons]
      exact Nat.succ_le_succ (ih v w h)

lemma filter_notMem_cons_lt (keys : List String) (url : String) (v : List String)
    (hk : url ∈ keys) (hv : url ∉ v) :
    (keys.filter (fun k => k ∉ (url :: v))).length <
      (keys.filter (fun k => k ∉ v)).length := by
  induction keys with
  | nil => simp at hk
  | cons u rest ih =>
    simp only [List.filter_cons]
    by_cases hu : u = url
    · subst hu
      have h1 : decide (u ∉ (u :: v)) = false := by simp
      have h2 : decide (u ∉ v) = true := by simp [hv]
      rw [h1, h2]
      simp only [if_true, if_false, Bool.false_eq_true, List.length_cons]
      exact Nat.lt_succ_of_le
        (filter_notMem_length_mono rest v (u :: v)
          (fun x hx => List.mem_cons_of_mem u hx))
    · have hk2 : url ∈ rest := by
        rcases List.mem_cons.mp hk with heq | hm
        · exact absurd heq.symm hu
        · exact hm
      by_cases huv : u ∈ v
      · have h1 : decide (u ∉ (url :: v)) = false := by simp [huv]
        have h2 : decide (u ∉ v) = false := by simp [huv]
        rw [h1, h2]
        simpa using ih hk2
      · have h1 : decide (u ∉ (url :: v)) = true := by
          simp [List.mem_cons, hu, huv]
        have h2 : decide (u ∉ v) = true := by simp [huv]
        rw [h1, h2]
        simpa using Nat.succ_lt_succ (ih hk2)

lemma unvisitedCount_mono (fm : List (String × SmDoc)) {v w : List String}
    (h : ∀ x, x ∈ v → x ∈ w) : unvisitedCount fm w ≤ unvisitedCount fm v :=
  filter_notMem_length_mono (fm.map Prod.fst) v w h

lemma unvisitedCount_cons_lt (fm : List (String × SmDoc)) {url : String}
    {v : List String} (hk : url ∈ fm.map Prod.fst) (hv : url ∉ v) :
    unvisitedCount fm (url :: v) < unvisitedCount fm v :=
  filter_notMem_cons_lt (fm.map Prod.fst) url v hk hv

lemma processSitemap_visited_mono (fm : List (String × SmDoc)) :
    ∀ (fuel : Nat) (url : String) (st : SmState) (x : String),
      x ∈ st.visited → x ∈ (processSitemap fm fuel url st).visited := by
  intro fuel
  induction fuel with
  | zero =>
    intro url st x hx
    unfold processSitemap
    split
    · exact hx
    · cases fm.lookup url with
      | none => exact List.mem_cons_of_mem url hx
      | some d =>
        cases d with
        | urlset locs => exact List.mem_cons_of_mem url hx
        | index children => exact List.mem_cons_of_mem url hx
  | succ f ih =>
    intro url st x hx
    have hfold : ∀ (children : List String) (s : SmState) (x : String),
        x ∈ s.visited →
        x ∈ (children.foldl (fun s c => processSitemap fm f c s) s).visited := by
      intro children
      induction children with
      | nil => intro s x hx; exact hx
      | cons c rest ihc => intro s x hx; exact ihc _ x (ih c s x hx)
    unfold processSitemap
    split
    · exact hx
    · cases fm.lookup url with
      | none => exact List.mem_cons_of_mem url hx
      | some d =>
        cases d with
        | urlset locs => exact List.mem_cons_of_mem url hx
        | index children =>
          exact hfold children (fetchMark url st) x (List.mem_cons_of_mem url hx)

lemma processSitemap_fetched_inv (fm : List (String × SmDoc)) :
    ∀ (fuel : Nat) (url : String) (st : SmState),
      st.fetched.Nodup → (∀ u, u ∈ st.fetched → u ∈ st.visited) →
      (processSitemap fm fuel url st).fetched.Nodup ∧
        ∀ u, u ∈ (processSitemap fm fuel url st).fetched →
          u ∈ (processSitemap fm fuel url st).visited := by
  intro fuel
  induction fuel with
  | zero =>
    intro url st hnd hsub
    unfold processSitemap
    split
    · exact ⟨hnd, hsub⟩
    · rename_i hnv
      have hmark : (fetchMark url st).fetched.Nodup ∧
          ∀ u, u ∈ (fetchMark url st).fetched → u ∈ (fetchMark url st).visited := by
        constructor
        · have hnm : url ∉ st.fetched := fun hm => hnv (hsub url hm)
          simpa [fetchMark, List.nodup_append] using ⟨hnd, hnm⟩
        · intro u hu
          rcases List.mem_append.mp hu with hm | hm
          · exact List.mem_cons_of_mem url (hsub u hm)
          · rcases List.mem_singleton.mp hm with rfl
            exact List.mem_cons_self u st.visited
      cases fm.lookup url with
      | none => exact hmark
      | some d =>
        cases d with
        | urlset locs => exact hmark
        | index children => exact hmark
  | succ f ih =>
    intro url st hnd hsub
    have hfold : ∀ (children : List String) (s : SmState),
        s.fetched.Nodup → (∀ u, u ∈ s.fetched → u ∈ s.visited) →
        (children.foldl (fun s c => processSitemap fm f c s) s).fetched.Nodup ∧
          ∀ u, u ∈ (children.foldl (fun s c => processSitemap fm f c s) s).fetched →
            u ∈ (children.foldl (fun s c => processSitemap fm f c s) s).visited := by
      intro children
      induction children with
      | nil => intro s h1 h2; exact ⟨h1, h2⟩
      | cons c rest ihc =>
        intro s h1 h2
        obtain ⟨h1a, h2a⟩ := ih c s h1 h2
        exact ihc _ h1a h2a
    unfold processSitemap
    split
    · exact ⟨hnd, hsub⟩
    · rename_i hnv
      have hmark : (fetchMark url st).fetched.Nodup ∧
          ∀ u, u ∈ (fetchMark url st).fetched → u ∈ (fetchMark url st).visited := by
        constructor
        · have hnm : url ∉ st.fetched := fun hm => hnv (hsub url hm)
          simpa [fetchMark, List.nodup_append] using ⟨hnd, hnm⟩
        · intro u hu
          rcases List.mem_append.mp hu with hm | hm
          · exact List.mem_cons_of_mem url (hsub u hm)
          · rcases List.mem_singleton.mp hm with rfl
            exact List.mem_cons_self u st.visited
      cases fm.lookup url with
      | none => exact hmark
      | some d =>
        cases d with
        | urlset locs => exact hmark
        | index children => exact hfold children (fetchMark url st) hmark.1 hmark.2

lemma processSitemap_ok (fm : List (String × SmDoc)) :
    ∀ (fuel : Nat) (url : String) (st : SmState),
      st.ok = true → unvisitedCount fm st.visited ≤ fuel →
      (processSitemap fm fuel url st).ok = true := by
  intro fuel
  induction fuel with
  | zero =>
    intro url st hok hcnt
    unfold processSitemap
    split
    · exact hok
    · rename_i hnv
      cases hlk : fm.lookup url with
      | none => exact hok
      | some d =>
        cases d with
        | urlset locs => exact hok
        | index children =>
          exfalso
          have hkey : url ∈ fm.map Prod.fst := lookup_some_mem_keys hlk
          have hpos : 0 < unvisitedCount fm st.visited := by
            have hmem : url ∈ (fm.map Prod.fst).filter (fun k => k ∉ st.visited) :=
              List.mem_filter.mpr ⟨hkey, by simpa using hnv⟩
            exact List.length_pos.mpr (List.ne_nil_of_mem hmem)
          omega
  | succ f ih =>
    intro url st hok hcnt
    unfold processSitemap
    split
    · exact hok
    · rename_i hnv
      cases hlk : fm.lookup url with
      | none => exact hok
      | some d =>
        cases d with
        | urlset locs => exact hok
        | index children =>
          have hkey : url ∈ fm.map Prod.fst := lookup_some_mem_keys hlk
          have hlt : unvisitedCount fm (url :: st.visited) <
              unvisitedCount fm st.visited :=
            unvisitedCount_cons_lt fm hkey hnv
          have hstart : unvisitedCount fm (fetchMark url st).visited ≤ f := by
            have : (fetchMark url st).visited = url :: st.visited := rfl
            rw [this]; omega
          have hfold : ∀ (children : List String) (s : SmState),
              s.ok = true → unvisitedCount fm s.visited ≤ f →
              (children.foldl (fun s c => processSitemap fm f c s) s).ok = true := by
            intro children
            induction children with
            | nil => intro s h _; exact h
            | cons c rest ihc =>
              intro s h hc
              apply ihc
              · exact ih c s h hc
              · calc unvisitedCount fm (processSitemap fm f c s).visited
                    ≤ unvisitedCount fm s.visited :=
                      unvisitedCount_mono fm (processSitemap_visited_mono fm f c s)
                  _ ≤ f := hc
          exact hfold children (fetchMark url st) hok hstart

/-- Claim C3: for every finite sitemap graph — in particular one in which
an index references sitemap A twice and A references itself — the
traversal underlying extractUrlsFromSitemap completes (the fuel-exhaustion
flag stays true whenever the fuel is at least the number of sitemap
documents of the graph, so the original unbounded recursion terminates)
and the log of fetched sitemap URLs has no duplicates: each sitemap URL is
fetched and processed at most once per call, thanks to the per-call
visited set. -/
theorem extractUrlsFromSitemap_terminates_and_visits_once
    (fm : List (String × SmDoc)) (fuel : Nat) (sitemapUrl : String) :
    extractUrlsFromSitemap fm fuel sitemapUrl =
      (processSitemap fm fuel sitemapUrl initSmState).urls.eraseDups ∧
    (processSitemap fm fuel sitemapUrl initSmState).fetched.Nodup ∧
    (unvisitedCount fm [] ≤ fuel →
      (processSitemap fm fuel sitemapUrl initSmState).ok = true) := by
  refine ⟨rfl, ?_, ?_⟩
  · exact (processSitemap_fetched_inv fm fuel sitemapUrl initSmState
      List.nodup_nil (by intro u hu; simp [initSmState] at hu)).1
  · intro h
    exact processSitemap_ok fm fuel sitemapUrl initSmState rfl h

/-- Sitemap graph of the spec scenario: an index referencing sitemap A
twice while A references itself. -/
def exampleSitemapGraph : List (String × SmDoc) :=
  [("https://s.com/index.xml",
      SmDoc.index ["https://s.com/a.xml", "https://s.com/a.xml"]),
   ("https://s.com/a.xml", SmDoc.index ["https://s.com/a.xml"])]

/-- Witness running the traversal claim on the spec scenario: the fuel
bound is met, the traversal completes, and sitemap A is fetched exactly
once. -/
theorem extractUrlsFromSitemap_terminates_witness :
    unvisitedCount exampleSitemapGraph [] ≤ 3 ∧
    (processSitemap exampleSitemapGraph 3 "https://s.com/index.xml" initSmState).ok
      = true ∧
    (processSitemap exampleSitemapGraph 3 "https://s.com/index.xml"
      initSmState).fetched = ["https://s.com/index.xml", "https://s.com/a.xml"] ∧
    (processSitemap exampleSitemapGraph 3 "https://s.com/index.xml"
      initSmState).fetched.count "https://s.com/a.xml" = 1 :=
  ⟨by decide,
   (extractUrlsFromSitemap_terminates_and_visits_once exampleSitemapGraph 3
      "https://s.com/index.xml").2.2 (by decide),
   by decide, by decide⟩

/-! ## Grouping, rendering and CSV export (buildLlmsTextFromMetadata,
downloadMetadataCSV) -/

/-- Metadata record as produced by extractMetaFromHtml and the failed-fetch
fallback of the scrape loop. -/
structure PageRecord where
  url : String
  meta_title : String
  meta_description : String
deriving DecidableEq

/-- FAQ item: a question/answer pair. -/
structure FaqItem where
  question : String
  answer : String
deriving DecidableEq

/-- Filter applied by the rendering loop: the record survives when url,
title and description are all non-empty after trimming. -/
def passesFilter (r : PageRecord) : Bool :=
  (jsTrim r.url ≠ "") && (jsTrim r.meta_title ≠ "") && (jsTrim r.meta_description ≠ "")

/-- Bullet line of one record. -/
def bulletLine (title url description : String) : String :=
  "- [" ++ title ++ "](" ++ url ++ "): " ++ description

/-- Bullet line of a record, built from its trimmed fields. -/
def recordBullet (r : PageRecord) : String :=
  bulletLine (jsTrim r.meta_title) (jsTrim r.url) (jsTrim r.meta_description)

/-- Model of the insertion-ordered Map update: when the key exists its
bucket gets the line appended, otherwise a fresh singleton bucket is added
at the end. -/
def pushToGroup (groups : List (String × List String)) (k : String) (line : String) :
    List (String × List String) :=
  if groups.any (fun p => p.1 = k) then
    groups.map (fun p => if p.1 = k then (p.1, p.2 ++ [line]) else p)
  else groups ++ [(k, [line])]

/-- Processing of one record by the rendering loop. -/
def groupStep (groups : List (String × List String)) (r : PageRecord) :
    List (String × List String) :=
  if passesFilter r then
    pushToGroup groups (getGroupNameFromUrl (jsTrim r.url)) (recordBullet r)
  else groups

/-- Model of the groups Map after the loop over metadataRows. -/
def buildGroups (rows : List PageRecord) : List (String × List String) :=
  rows.foldl groupStep []

/-- Bucket of a group name, the empty list when absent. -/
def lookupGroup (groups : List (String × List String)) (k : String) : List String :=
  ((groups.find? (fun p => p.1 = k)).map Prod.snd).getD []

/-- Ordered group names: Page first when present, then the remaining keys
in insertion order. -/
def orderedGroupNames (groups : List (String × List String)) : List String :=
  (if groups.any (fun p => p.1 = "Page") then ["Page"] else []) ++
    (groups.map Prod.fst).filter (fun k => k ≠ "Page")

/-- Rendered lines of the ordered groups: each group contributes a heading,
a blank line and its bucket, with two blank lines between consecutive
groups. -/
def renderGroups (groups : List (String × List String)) : List String → List String
  | [] => []
  | [g] => ["## " ++ g, ""] ++ lookupGroup groups g
  | g :: g2 :: rest =>
    ["## " ++ g, ""] ++ lookupGroup groups g ++ ["", ""] ++
      renderGroups groups (g2 :: rest)

/-- Model of appendFaqSection: nothing for an empty FAQ list, otherwise the
fixed header followed by the per-item blocks, items with an empty trimmed
question or answer being skipped. -/
def faqSectionLines (faqItems : List FaqItem) : List String :=
  if faqItems.length = 0 then []
  else
    ["", "Frequently Asked Questions (FAQ)",
     "================================", ""] ++
    faqItems.flatMap (fun item =>
      if jsTrim item.question = "" ∨ jsTrim item.answer = "" then []
      else ["- user question:", jsTrim item.question, "",
            "- agent answer:", jsTrim item.answer, "", "---", ""])

/-- Model of buildLlmsTextFromMetadata at the line level: the grouped
sections (or the no-complete-rows placeholder) followed by the FAQ
section. -/
def buildLlmsLines (rows : List PageRecord) (faqItems : List FaqItem) : List String :=
  (if (buildGroups rows).length = 0 then
    ["## Page", "", "// No complete rows (URL + title + description) found."]
  else renderGroups (buildGroups rows) (orderedGroupNames (buildGroups rows))) ++
    faqSectionLines faqItems

/-- Rendered document: the lines joined with newlines. -/
def buildLlmsTextFromMetadata (rows : List PageRecord) (faqItems : List FaqItem) :
    String :=
  String.intercalate "\n" (buildLlmsLines rows faqItems)

/-- Model of the CSV quote doubling. -/
def escQuotes : List Char → List Char
  | [] => []
  | c :: rest => if c = '"' then '"' :: '"' :: escQuotes rest else c :: escQuotes rest

/-- Test of the characters that force the field to be wrapped in quotes. -/
def needsQuoting (s : List Char) : Bool :=
  s.any (fun c => c = '"' ∨ c = ',' ∨ c = '\n')

/-- Model of escapeCSV: double the quotes, then wrap when the result holds
a comma, quote or newline. -/
def escapeCSV (value : String) : String :=
  let s := String.mk (escQuotes value.data)
  if needsQuoting s.data then "\"" ++ s ++ "\"" else s

/-- CSV header row. -/
def csvHeader : String := "url,meta_title,meta_description"

/-- CSV data row of one record: the escaped fields joined with commas. -/
def csvLine (r : PageRecord) : String :=
  escapeCSV r.url ++ "," ++ escapeCSV r.meta_title ++ "," ++ escapeCSV r.meta_description

/-- Model of the rows list assembled by downloadMetadataCSV. -/
def csvRows (rows : List PageRecord) : List String :=
  csvHeader :: rows.map csvLine

/-- Keys of the groups association list. -/
def keysOf (groups : List (String × List String)) : List String :=
  groups.map Prod.fst

lemma map_updGroup_of_not_any (groups : List (String × List String)) (k : String)
    (line : String) (h : groups.any (fun p => p.1 = k) = false) :
    groups.map (fun p => if p.1 = k then (p.1, p.2 ++ [line]) else p) = groups := by
  induction groups with
  | nil => rfl
  | cons p rest ih =>
    rw [List.any_cons] at h
    have hp : decide (p.1 = k) = false := by
      cases hd : decide (p.1 = k) with
      | false => rfl
      | true => rw [hd] at h; simp at h
    have hpk : ¬ p.1 = k := of_decide_eq_false hp
    have hrest : rest.any (fun p => p.1 = k) = false := by
      cases hr : rest.any (fun p => p.1 = k) with
      | false => rfl
      | true => rw [hp, hr] at h; simp at h
    simp only [List.map_cons, if_neg hpk, ih hrest]

lemma keysOf_map_updGroup (groups : List (String × List String)) (k : String)
    (line : String) :
    keysOf (groups.map (fun p => if p.1 = k then (p.1, p.2 ++ [line]) else p)) =
      keysOf groups := by
  unfold keysOf
  rw [List.map_map]
  apply List.map_congr_left
  intro p _
  by_cases hp : p.1 = k
  · simp [hp]
  · simp [hp]

lemma pushToGroup_keys_nodup {groups : List (String × List String)} {k line : String}
    (h : (keysOf groups).Nodup) : (keysOf (pushToGroup groups k line)).Nodup := by
  unfold pushToGroup
  split
  · rw [keysOf_map_updGroup]; exact h
  · rename_i hany
    have hnk : k ∉ keysOf groups := by
      intro hm
      obtain ⟨p, hp, hpk⟩ := List.mem_map.mp hm
      have : groups.any (fun p => p.1 = k) = true :=
        List.any_eq_true.mpr ⟨p, hp, by simp [hpk]⟩
      exact hany this
    have hnodup : (groups.map Prod.fst ++ [k]).Nodup := by
      rw [List.nodup_append]
      exact ⟨h, List.nodup_singleton k, by
        intro x hx hk2
        rw [List.mem_singleton] at hk2
        subst hk2
        exact hnk hx⟩
    unfold keysOf
    rw [List.map_append]
    simpa using hnodup

lemma join_map_updGroup (groups : List (String × List String)) (k line : String)
    (hnd : (keysOf groups).Nodup) (hany : groups.any (fun p => p.1 = k) = true) :
    ((groups.map (fun p => if p.1 = k then (p.1, p.2 ++ [line]) else p)).map
      Prod.snd).flatten.Perm (((groups.map Prod.snd).flatten) ++ [line]) := by
  induction groups with
  | nil => simp at hany
  | cons p rest ih =>
    by_cases hpk : p.1 = k
    · have hkrest : ¬ rest.any (fun q => q.1 = k) = true := by
        intro habs
        obtain ⟨q, hq, hqk⟩ := List.any_eq_true.mp habs
        have hkm : k ∈ keysOf rest :=
          List.mem_map.mpr ⟨q, hq, of_decide_eq_true hqk⟩
        have hnot : p.1 ∉ keysOf rest := (List.nodup_cons.mp hnd).1
        rw [hpk] at hnot
        exact hnot hkm
      have hrest0 : rest.any (fun q => q.1 = k) = false := by
        cases hr : rest.any (fun q => q.1 = k) with
        | false => rfl
        | true => exact absurd hr hkrest
      rw [List.map_cons, if_pos hpk, map_updGroup_of_not_any rest k line hrest0]
      simp only [List.map_cons, List.flatten_cons]
      rw [List.append_assoc, List.append_assoc]
      exact List.Perm.append_left p.2
        (by simpa using
          (@List.perm_append_comm _ [line] ((rest.map Prod.snd).flatten)))
    · have hany2 : rest.any (fun q => q.1 = k) = true := by
        rw [List.any_cons] at hany
        cases hor : decide (p.1 = k) with
        | true => exact absurd (of_decide_eq_true hor) hpk
        | false =>
          rw [hor] at hany
          simpa using hany
      have hnd2 : (keysOf rest).Nodup := (List.nodup_cons.mp hnd).2
      rw [List.map_cons, if_neg hpk]
      simp only [List.map_cons, List.flatten_cons]
      rw [List.append_assoc]
      exact List.Perm.append_left p.2 (ih hnd2 hany2)

lemma join_pushToGroup (groups : List (String × List String)) (k line : String)
    (hnd : (keysOf groups).Nodup) :
    ((pushToGroup groups k line).map Prod.snd).flatten.Perm
      ((groups.map Prod.snd).flatten ++ [line]) := by
  unfold pushToGroup
  split
  · rename_i hany
    exact join_map_updGroup groups k line hnd hany
  · simp

lemma buildGroups_aux_keys_nodup (rows : List PageRecord) :
    ∀ groups : List (String × List String), (keysOf groups).Nodup →
      (keysOf (rows.foldl groupStep groups)).Nodup := by
  induction rows with
  | nil => intro groups h; exact h
  | cons r rest ih =>
    intro groups h
    rw [List.foldl_cons]
    apply ih
    unfold groupStep
    split
    · exact pushToGroup_keys_nodup h
    · exact h

lemma buildGroups_keys_nodup (rows : List PageRecord) :
    (keysOf (buildGroups rows)).Nodup :=
  buildGroups_aux_keys_nodup rows [] List.nodup_nil

lemma join_buildGroups_aux (rows : List PageRecord) :
    ∀ groups : List (String × List String), (keysOf groups).Nodup →
      ((rows.foldl groupStep groups).map Prod.snd).flatten.Perm
        ((groups.map Prod.snd).flatten ++
          (rows.filter passesFilter).map recordBullet) := by
  induction rows with
  | nil => intro groups _; simp
  | cons r rest ih =>
    intro groups hnd
    rw [List.foldl_cons, List.filter_cons]
    by_cases hp : passesFilter r = true
    · have hstep : groupStep groups r =
          pushToGroup groups (getGroupNameFromUrl (jsTrim r.url)) (recordBullet r) := by
        unfold groupStep
        rw [if_pos hp]
      rw [hstep, hp, if_pos rfl]
      have h1 := ih (pushToGroup groups (getGroupNameFromUrl (jsTrim r.url))
        (recordBullet r)) (pushToGroup_keys_nodup hnd)
      have h2 := (join_pushToGroup groups (getGroupNameFromUrl (jsTrim r.url))
        (recordBullet r) hnd).append_right ((rest.filter passesFilter).map recordBullet)
      have h3 := h1.trans h2
      have hEq : ((groups.map Prod.snd).flatten ++ [recordBullet r]) ++
          (rest.filter passesFilter).map recordBullet =
          (groups.map Prod.snd).flatten ++
            (recordBullet r :: (rest.filter passesFilter).map recordBullet) := by
        rw [List.append_assoc]
        rfl
      rw [hEq] at h3
      simpa using h3
    · have hstep : groupStep groups r = groups := by
        unfold groupStep
        rw [if_neg hp]
      have hpf : passesFilter r = false := by
        cases hq : passesFilter r with
        | false => rfl
        | true => exact absurd hq hp
      rw [hstep, hpf]
      simp only [Bool.false_eq_true, if_false]
      exact ih groups hnd

lemma find_of_mem_nodup {groups : List (String × List String)}
    {p : String × List String} (hm : p ∈ groups) (hnd : (keysOf groups).Nodup) :
    groups.find? (fun q => q.1 = p.1) = some p := by
  induction groups with
  | nil => simp at hm
  | cons q rest ih =>
    by_cases hq : q.1 = p.1
    · have hpq : p = q := by
        rcases List.mem_cons.mp hm with h | h
        · exact h
        · exfalso
          have h1 : p.1 ∈ keysOf rest := List.mem_map.mpr ⟨p, h, rfl⟩
          have h2 : q.1 ∉ keysOf rest := (List.nodup_cons.mp hnd).1
          rw [hq] at h2
          exact h2 h1
      rw [List.find?_cons_of_pos _ (by simp [hq])]
      rw [hpq]
    · rw [List.find?_cons_of_neg _ (by simp [hq])]
      have hm2 : p ∈ rest := by
        rcases List.mem_cons.mp hm with h | h
        · exact absurd (by rw [h]) hq
        · exact h
      exact ih hm2 (List.nodup_cons.mp hnd).2

lemma lookupGroup_of_mem {groups : List (String × List String)}
    {p : String × List String} (hm : p ∈ groups) (hnd : (keysOf groups).Nodup) :
    lookupGroup groups p.1 = p.2 := by
  unfold lookupGroup
  rw [find_of_mem_nodup hm hnd]
  rfl

lemma mem_orderedGroupNames {groups : List (String × List String)}
    {p : String × List String} (hm : p ∈ groups) :
    p.1 ∈ orderedGroupNames groups := by
  unfold orderedGroupNames
  by_cases hpage : p.1 = "Page"
  · have hany : groups.any (fun q => q.1 = "Page") = true :=
      List.any_eq_true.mpr ⟨p, hm, by simp [hpage]⟩
    rw [if_pos hany, hpage]
    exact List.mem_append_left _ (List.mem_singleton.mpr rfl)
  · apply List.mem_append_right
    exact List.mem_filter.mpr ⟨List.mem_map.mpr ⟨p, hm, rfl⟩, by simp [hpage]⟩

lemma mem_renderGroups (groups : List (String × List String)) :
    ∀ (names : List String) (g : String), g ∈ names →
      ∀ x ∈ lookupGroup groups g, x ∈ renderGroups groups names := by
  intro names
  induction names with
  | nil => intro g hg; simp at hg
  | cons n rest ih =>
    intro g hg x hx
    cases rest with
    | nil =>
      rcases List.mem_cons.mp hg with rfl | h
      · unfold renderGroups
        exact List.mem_append_right _ hx
      · simp at h
    | cons n2 rest2 =>
      unfold renderGroups
      rcases List.mem_cons.mp hg with rfl | h
      · exact List.mem_append_left _
          (List.mem_append_left _ (List.mem_append_right _ hx))
      · exact List.mem_append_right _ (ih g h x hx)

/-- Claim C5: a record contributes a bullet line to the rendered document
exactly when its url, title and description are all non-empty after
trimming — the bullet lines of the group buckets are, as a multiset,
exactly the bullet lines of the records passing the filter, and every
bucket line appears in the rendered line list — while the CSV export keeps
every record: a record with an empty description is excluded from the
rendered groups but still yields a CSV row whose meta_description field is
empty. -/
theorem buildLlms_filter_and_csv (rows : List PageRecord) :
    ((buildGroups rows).map Prod.snd).flatten.Perm
      ((rows.filter passesFilter).map recordBullet) ∧
    (∀ (faqItems : List FaqItem) (p : String × List String) (line : String),
      p ∈ buildGroups rows → line ∈ p.2 → line ∈ buildLlmsLines rows faqItems) ∧
    (∀ r ∈ rows, csvLine r ∈ csvRows rows) ∧
    (∀ r ∈ rows, r.meta_description = "" →
      passesFilter r = false ∧
      csvLine r = escapeCSV r.url ++ "," ++ escapeCSV r.meta_title ++ ",") := by
  refine ⟨?_, ?_, ?_, ?_⟩
  · have h := join_buildGroups_aux rows [] List.nodup_nil
    simpa using h
  · intro faqItems p line hp hline
    unfold buildLlmsLines
    apply List.mem_append_left
    have hne : ¬ (buildGroups rows).length = 0 := by
      intro h0
      rw [List.length_eq_zero] at h0
      rw [h0] at hp
      simp at hp
    rw [if_neg hne]
    have hlk : lookupGroup (buildGroups rows) p.1 = p.2 :=
      lookupGroup_of_mem hp (buildGroups_keys_nodup rows)
    exact mem_renderGroups (buildGroups rows) (orderedGroupNames (buildGroups rows))
      p.1 (mem_orderedGroupNames hp) line (by rw [hlk]; exact hline)
  · intro r hr
    unfold csvRows
    exact List.mem_cons_of_mem _ (List.mem_map.mpr ⟨r, hr, rfl⟩)
  · intro r hr hdesc
    constructor
    · unfold passesFilter
      rw [hdesc]
      simp [jsTrim, trimL]
    · unfold csvLine
      rw [hdesc]
      have he : escapeCSV "" = "" := rfl
      rw [he, String.append_empty]

/-- Witness rows for the rendering and CSV claim. -/
def exampleRows : List PageRecord :=
  [⟨"https://x.com/a/b", "T", "D"⟩, ⟨"https://x.com/c", "T2", ""⟩]

/-- Witness instantiating the rendering and CSV claim: the complete record
appears as a bullet line of the rendered document, and the record with an
empty description is excluded from the groups but keeps a CSV row ending
in an empty field. -/
theorem buildLlms_filter_and_csv_witness :
    "- [T](https://x.com/a/b): D" ∈ buildLlmsLines exampleRows [] ∧
    (passesFilter ⟨"https://x.com/c", "T2", ""⟩ = false ∧
      csvLine ⟨"https://x.com/c", "T2", ""⟩ =
        escapeCSV "https://x.com/c" ++ "," ++ escapeCSV "T2" ++ ",") ∧
    csvLine ⟨"https://x.com/c", "T2", ""⟩ ∈ csvRows exampleRows :=
  ⟨(buildLlms_filter_and_csv exampleRows).2.1 []
      ("A", ["- [T](https://x.com/a/b): D"]) "- [T](https://x.com/a/b): D"
      (by decide) (by decide),
   (buildLlms_filter_and_csv exampleRows).2.2.2 ⟨"https://x.com/c", "T2", ""⟩
      (by decide) rfl,
   (buildLlms_filter_and_csv exampleRows).2.2.1 ⟨"https://x.com/c", "T2", ""⟩
      (by decide)⟩

/-! ## Bullet-line round trip (claim on the rendered record format) -/

/-- Scanner for the first occurrence of the two-character separator x y:
the characters before it and the characters after it, none when the
separator does not occur. -/
def splitAtSep2 (x y : Char) : List Char → Option (List Char × List Char)
  | [] => none
  | [_] => none
  | c :: d :: rest =>
    if c = x ∧ d = y then some ([], rest)
    else (splitAtSep2 x y (d :: rest)).map (fun p => (c :: p.1, p.2))

/-- Occurrence test for the two-character separator. -/
def hasSep2 (x y : Char) : List Char → Bool
  | [] => false
  | [_] => false
  | c :: d :: rest => (c = x ∧ d = y) || hasSep2 x y (d :: rest)

/-- Scanner for the first occurrence of the three-character separator. -/
def splitAtSep3 (x y z : Char) : List Char → Option (List Char × List Char)
  | c :: d :: e :: rest =>
    if c = x ∧ d = y ∧ e = z then some ([], rest)
    else (splitAtSep3 x y z (d :: e :: rest)).map (fun p => (c :: p.1, p.2))
  | _ => none

/-- Occurrence test for the three-character separator. -/
def hasSep3 (x y z : Char) : List Char → Bool
  | c :: d :: e :: rest => (c = x ∧ d = y ∧ e = z) || hasSep3 x y z (d :: e :: rest)
  | _ => false

/-- Modelled from the spec: a parser of the bullet-line format over the
character list — the leading dash-space-bracket, a title up to the first
bracket-paren separator, a url up to the first paren-colon-space
separator, and the description as the remainder. -/
def parseBulletChars : List Char → Option (List Char × List Char × List Char)
  | c1 :: c2 :: c3 :: rest =>
    if c1 = '-' ∧ c2 = ' ' ∧ c3 = '[' then
      (splitAtSep2 ']' '(' rest).bind (fun p =>
        (splitAtSep3 ')' ':' ' ' p.2).map (fun q => (p.1, q.1, q.2)))
    else none
  | _ => none

/-- Modelled from the spec: the bullet-line parser on strings. -/
def parseBulletLine (line : String) : Option (String × String × String) :=
  (parseBulletChars line.data).map
    (fun p => (String.mk p.1, String.mk p.2.1, String.mk p.2.2))

lemma parseBulletChars_cons₃ (c1 c2 c3 : Char) (rest : List Char) :
    parseBulletChars (c1 :: c2 :: c3 :: rest) =
      if c1 = '-' ∧ c2 = ' ' ∧ c3 = '[' then
        (splitAtSep2 ']' '(' rest).bind (fun p =>
          (splitAtSep3 ')' ':' ' ' p.2).map (fun q => (p.1, q.1, q.2)))
      else none := rfl

lemma splitAtSep2_cons₂ (x y c d : Char) (rest : List Char) :
    splitAtSep2 x y (c :: d :: rest) =
      if c = x ∧ d = y then some ([], rest)
      else (splitAtSep2 x y (d :: rest)).map (fun p => (c :: p.1, p.2)) := rfl

lemma splitAtSep3_cons₃ (x y z c d e : Char) (rest : List Char) :
    splitAtSep3 x y z (c :: d :: e :: rest) =
      if c = x ∧ d = y ∧ e = z then some ([], rest)
      else (splitAtSep3 x y z (d :: e :: rest)).map (fun p => (c :: p.1, p.2)) := rfl

lemma splitAtSep2_append (x y : Char) (hxy : x ≠ y) (a b : List Char)
    (ha : hasSep2 x y a = false) :
    splitAtSep2 x y (a ++ x :: y :: b) = some (a, b) := by
  induction a with
  | nil =>
    rw [List.nil_append, splitAtSep2_cons₂, if_pos ⟨rfl, rfl⟩]
  | cons c a' ih =>
    cases a' with
    | nil =>
      have hcond : ¬ (c = x ∧ x = y) := fun h => hxy h.2
      rw [List.cons_append, List.nil_append, splitAtSep2_cons₂, if_neg hcond]
      rw [splitAtSep2_cons₂, if_pos ⟨rfl, rfl⟩]
      rfl
    | cons e a'' =>
      have hne : ¬ (c = x ∧ e = y) := by
        intro h
        rw [hasSep2] at ha
        rcases h with ⟨rfl, rfl⟩
        simp at ha
      have ha' : hasSep2 x y (e :: a'') = false := by
        rw [hasSep2] at ha
        cases hr : hasSep2 x y (e :: a'') with
        | false => rfl
        | true => rw [hr] at ha; simp at ha
      rw [List.cons_append, List.cons_append, splitAtSep2_cons₂, if_neg hne]
      have := ih ha'
      rw [List.cons_append] at this
      rw [this]
      rfl

lemma splitAtSep3_append (x y z : Char) (hxy : x ≠ y) (hxz : x ≠ z)
    (a b : List Char) (ha : hasSep3 x y z a = false) :
    splitAtSep3 x y z (a ++ x :: y :: z :: b) = some (a, b) := by
  induction a with
  | nil =>
    rw [List.nil_append, splitAtSep3_cons₃, if_pos ⟨rfl, rfl, rfl⟩]
  | cons c a' ih =>
    cases a' with
    | nil =>
      have hcond : ¬ (c = x ∧ x = y ∧ y = z) := fun h => hxy h.2.1
      rw [List.cons_append, List.nil_append, splitAtSep3_cons₃, if_neg hcond]
      rw [splitAtSep3_cons₃, if_pos ⟨rfl, rfl, rfl⟩]
      rfl
    | cons e a'' =>
      cases a'' with
      | nil =>
        have hcond : ¬ (c = x ∧ e = y ∧ x = z) := fun h => hxz h.2.2
        have hcond2 : ¬ (e = x ∧ x = y ∧ y = z) := fun h => hxy h.2.1
        rw [List.cons_append, List.cons_append, List.nil_append,
          splitAtSep3_cons₃, if_neg hcond]
        rw [splitAtSep3_cons₃, if_neg hcond2]
        rw [splitAtSep3_cons₃, if_pos ⟨rfl, rfl, rfl⟩]
        rfl
      | cons f a₃ =>
        have hne : ¬ (c = x ∧ e = y ∧ f = z) := by
          intro h
          rw [hasSep3] at ha
          rcases h with ⟨rfl, rfl, rfl⟩
          simp at ha
        have ha' : hasSep3 x y z (e :: f :: a₃) = false := by
          rw [hasSep3] at ha
          cases hr : hasSep3 x y z (e :: f :: a₃) with
          | false => rfl
          | true => rw [hr] at ha; simp at ha
        rw [List.cons_append, List.cons_append, List.cons_append,
          splitAtSep3_cons₃, if_neg hne]
        have := ih ha'
        rw [List.cons_append, List.cons_append] at this
        rw [this]
        rfl

lemma bulletLine_data (title url description : String) :
    (bulletLine title url description).data =
      '-' :: ' ' :: '[' ::
        (title.data ++ ']' :: '(' ::
          (url.data ++ ')' :: ':' :: ' ' :: description.data)) := by
  unfold bulletLine
  simp [String.data_append]

/-- The bullet-line round-trip claim fails as stated: the rendering is not
injective on triples passing the non-empty filter, so no parser recovers
the original triple from the line for all such strings.  Two distinct
passing triples — title "a](b" with url "c", and title "a" with url
"b](c", both with description "d" — render to one and the same line. -/
theorem bulletLine_roundTrip_counterexample :
    bulletLine "a](b" "c" "d" = bulletLine "a" "b](c" "d" ∧
    (("a](b", "c", "d") : String × String × String) ≠ ("a", "b](c", "d") ∧
    ("a](b" : String) ≠ "" ∧ ("c" : String) ≠ "" ∧ ("d" : String) ≠ "" := by
  refine ⟨by decide, by decide, by decide, by decide, by decide⟩

/-- Amended claim for the round trip: for every record whose rendered
title contains no bracket-paren separator and whose rendered url contains
no paren-colon-space separator, parsing the bullet line against the format
recovers exactly the rendered (title, url, description) triple — the
trimmed fields of the record, which equal the original fields whenever
those are already trimmed.  Without these separator restrictions two
distinct triples can render to the same line, so no parser recovers the
original in general. -/
theorem parseBulletLine_roundTrip (title url description : String)
    (ht : hasSep2 ']' '(' title.data = false)
    (hu : hasSep3 ')' ':' ' ' url.data = false) :
    parseBulletLine (bulletLine title url description) =
      some (title, url, description) := by
  have h2 := splitAtSep2_append ']' '(' (by decide) title.data
    (url.data ++ ')' :: ':' :: ' ' :: description.data) ht
  have h3 := splitAtSep3_append ')' ':' ' ' (by decide) (by decide) url.data
    description.data hu
  unfold parseBulletLine
  rw [bulletLine_data, parseBulletChars_cons₃, if_pos ⟨rfl, rfl, rfl⟩, h2]
  simp only [Option.some_bind, h3, Option.map_some]
  rfl

/-- Witness running the amended round trip on a concrete included record's
trimmed fields. -/
theorem parseBulletLine_roundTrip_witness :
    hasSep2 ']' '(' ("Home" : String).data = false ∧
    hasSep3 ')' ':' ' ' ("https://x.com/a" : String).data = false ∧
    parseBulletLine (bulletLine "Home" "https://x.com/a" "Welcome, all") =
      some ("Home", "https://x.com/a", "Welcome, all") :=
  ⟨by decide, by decide,
   parseBulletLine_roundTrip "Home" "https://x.com/a" "Welcome, all"
     (by decide) (by decide)⟩

/-! ## FAQ extraction tiers (extractFaqItemsFromHtml and helpers) -/

/-- Microdata entity as the extractor reads it: the text content of its
first name-itemprop descendant and of its first text-itemprop descendant,
the empty string when the element is absent (the source collapses a
missing element and empty text the same way). -/
structure MicroEntity where
  nameText : String
  textText : String
deriving DecidableEq

/-- FAQ-page root element of the microdata tier, carrying the results of
the two entity selectors: the mainEntity itemprop matches and the
mainEntityOfPage itemprop matches. -/
structure FaqRoot where
  mainEntities : List MicroEntity
  mainEntitiesOfPage : List MicroEntity
deriving DecidableEq

/-- Model of the JavaScript expression joining the two querySelectorAll
results with a logical or: querySelectorAll returns a NodeList object and
every object is truthy, so the expression always evaluates to the first
list, even when it is empty — the second operand is dead code. -/
def jsOrNodeList (a b : List MicroEntity) : List MicroEntity := a

/-- Model of extractFaqSchemaMicrodata: over every FAQ-page root take the
entity list (the or-expression of the two selectors), and keep the
trimmed name/text pair of every entity where both are non-empty. -/
def extractFaqSchemaMicrodata (faqRoots : List FaqRoot) : List FaqItem :=
  faqRoots.flatMap (fun root =>
    (jsOrNodeList root.mainEntities root.mainEntitiesOfPage).flatMap (fun ent =>
      if jsTrim ent.nameText ≠ "" ∧ jsTrim ent.textText ≠ "" then
        [⟨jsTrim ent.nameText, jsTrim ent.textText⟩]
      else []))

/-- JSON value as produced by JSON.parse; numeric values are restricted to
integers, which is all the claims need. -/
inductive Json where
  | str (s : String)
  | num (n : Int)
  | bool (b : Bool)
  | null
  | arr (elems : List Json)
  | obj (fields : List (String × Json))

/-- Field access on the field list of a parsed JSON object; on duplicate
keys JSON.parse keeps the last one. -/
def jsGet (fields : List (String × Json)) (k : String) : Option Json :=
  ((fields.filter (fun p => p.1 = k)).getLast?).map Prod.snd

/-- Property access modelled for every JSON value: only objects have the
fields the extractor reads, access on strings, numbers and booleans gives
undefined.  Property access on null throws in JavaScript, which the
enclosing try of the script loop turns into a discarded script; the model
instead yields no items from the offending node, which coincides on every
input considered here. -/
def jsGetField (j : Json) (k : String) : Option Json :=
  match j with
  | Json.obj fields => jsGet fields k
  | _ => none

/-- JavaScript truthiness of a JSON value. -/
def jsTruthy : Json → Bool
  | .str s => s ≠ ""
  | .num n => n ≠ 0
  | .bool b => b
  | .null => false
  | .arr _ => true
  | .obj _ => true

/-- Value of a JavaScript or-chain over possibly missing values: the first
present truthy value; a trailing falsy or missing value makes the chain
falsy, which every use site then treats as absent. -/
def firstTruthy : List (Option Json) → Option Json
  | [] => none
  | v :: rest =>
    match v with
    | some j => if jsTruthy j then some j else firstTruthy rest
    | none => firstTruthy rest

mutual

/-- Model of the JavaScript string conversion of a JSON value; array
elements are joined with commas, null inside an array contributes the
empty string, and plain objects print as the fixed object tag. -/
def jsToString : Json → String
  | .str s => s
  | .num n => toString n
  | .bool b => if b then "true" else "false"
  | .null => "null"
  | .arr xs => String.intercalate "," (jsToStringElems xs)
  | .obj _ => "[object Object]"

/-- String conversions of the elements of a joined array: null elements
contribute the empty string. -/
def jsToStringElems : List Json → List String
  | [] => []
  | Json.null :: rest => "" :: jsToStringElems rest
  | j :: rest => jsToString j :: jsToStringElems rest

end

/-- Model of nodeHasType: the type field (or-chain of the two spellings),
with a case-insensitive substring test against the query; an array-valued
type matches when any element does. -/
def nodeHasType (j : Json) (typeSubstring : String) : Bool :=
  match firstTruthy [jsGetField j "@type", jsGetField j "type"] with
  | none => false
  | some (.arr vs) =>
    vs.any (fun v =>
      subOccurs (lowerL typeSubstring.data) (lowerL (jsToString v).data))
  | some t => subOccurs (lowerL typeSubstring.data) (lowerL (jsToString t).data)

/-- Model of handleQuestion: the question text is the name field (or the
headline), the answer container is the first truthy of the three accepted
property names and may be a single object or an array; every
object-or-array answer contributes its text (or description) field, and
the pair is kept when both texts are non-empty before trimming — the
recorded pair holds the trimmed texts. -/
def handleQuestion (qObj : Json) : List FaqItem :=
  match qObj with
  | .obj _ | .arr _ =>
    (match firstTruthy [jsGetField qObj "acceptedAnswer",
        jsGetField qObj "acceptedAnswers", jsGetField qObj "suggestedAnswer"] with
      | some (.arr xs) => xs
      | some j => [j]
      | none => []).flatMap (fun ansObj =>
      match ansObj with
      | .obj _ | .arr _ =>
        if (match firstTruthy [jsGetField qObj "name", jsGetField qObj "headline"] with
              | some v => jsToString v
              | none => "") ≠ "" ∧
           (match firstTruthy [jsGetField ansObj "text", jsGetField ansObj "description"] with
              | some v => jsToString v
              | none => "") ≠ "" then
          [⟨jsTrim (match firstTruthy [jsGetField qObj "name", jsGetField qObj "headline"] with
              | some v => jsToString v
              | none => ""),
            jsTrim (match firstTruthy [jsGetField ansObj "text", jsGetField ansObj "description"] with
              | some v => jsToString v
              | none => "")⟩]
        else []
      | _ => [])
  | _ => []

mutual

/-- Model of the walk closure of extractFaqsFromLdJsonObject: arrays are
walked element-wise; an object tagged as FAQ page is expanded through the
or-chain of its main-entity fields (a single object or an array), every
entity tagged question being handled; any other object tagged question is
handled directly; and, in both cases, all field values of the object are
walked as well. -/
def walk : Json → List FaqItem
  | .arr xs => walkElems xs
  | .obj fields =>
    (if nodeHasType (Json.obj fields) "faqpage" then
      match firstTruthy [jsGet fields "mainEntity", jsGet fields "mainEntityOfPage",
          jsGet fields "mainEntityOfPageList"] with
      | none => []
      | some ent =>
        (match ent with
          | .arr xs => xs
          | e => [e]).flatMap (fun e =>
          if nodeHasType e "question" then handleQuestion e else [])
    else if nodeHasType (Json.obj fields) "question" then
      handleQuestion (Json.obj fields)
    else []) ++ walkFields fields
  | _ => []

/-- Walk of the elements of an array, in order. -/
def walkElems : List Json → List FaqItem
  | [] => []
  | j :: rest => walk j ++ walkElems rest

/-- Walk of the field values of an object, in insertion order. -/
def walkFields : List (String × Json) → List FaqItem
  | [] => []
  | (_, v) :: rest => walk v ++ walkFields rest

end

/-- Model of extractFaqsFromLdJsonObject: walk the parsed value. -/
def extractFaqsFromLdJsonObject (obj : Json) : List FaqItem := walk obj

/-- Deduplication key of the JSON-LD tier: question and answer joined by
the three-bar separator. -/
def faqKey (item : FaqItem) : String := item.question ++ "|||" ++ item.answer

/-- One step of the seen-set deduplication loop. -/
def dedupeStep (acc : List String × List FaqItem) (item : FaqItem) :
    List String × List FaqItem :=
  if faqKey item ∈ acc.1 then acc else (faqKey item :: acc.1, acc.2 ++ [item])

/-- Model of the dedupe-by-question-and-answer loop closing
extractFaqSchemaLdJson. -/
def dedupeFaqs (faqs : List FaqItem) : List FaqItem :=
  (faqs.foldl dedupeStep ([], [])).2

/-- Pairs collected over all structured-data script blocks; a script whose
body is blank or fails to parse as JSON is represented as none and
contributes nothing, as the source skips it silently. -/
def collectedFaqs (scripts : List (Option Json)) : List FaqItem :=
  scripts.flatMap (fun s =>
    match s with
    | none => []
    | some d => extractFaqsFromLdJsonObject d)

/-- Model of extractFaqSchemaLdJson: the collected pairs, deduplicated. -/
def extractFaqSchemaLdJson (scripts : List (Option Json)) : List FaqItem :=
  dedupeFaqs (collectedFaqs scripts)

/-- Sibling node following a heading: an element with its tag (lowercase)
and text content, or a bare text node. -/
inductive SibNode where
  | element (tag : String) (text : String)
  | textNode (text : String)
deriving DecidableEq

/-- Heading of the fallback tier: its text content and the sibling nodes
following it in document order. -/
structure Heading where
  text : String
  following : List SibNode
deriving DecidableEq

/-- Interrogative and modal words opening a question. -/
def questionStarts : List String :=
  ["what", "how", "why", "when", "where", "who", "does", "do", "can", "is",
   "are", "should", "will", "could"]

/-- Model of looksLikeQuestion: the trimmed lowercased text is a question
when it is non-empty and contains a question mark or starts with one of
the fixed words followed by a space. -/
def looksLikeQuestion (text : String) : Bool :=
  if String.mk (lowerL (jsTrim text).data) = "" then false
  else if (lowerL (jsTrim text).data).contains '?' then true
  else questionStarts.any (fun p => prefixAt (p ++ " ").data (lowerL (jsTrim text).data))

/-- Tags that end the answer walk. -/
def answerStopTags : List String := ["h1", "h2", "h3", "h4"]

/-- Element tags whose text is accumulated into the answer. -/
def answerTags : List String := ["p", "div", "li", "section", "article"]

/-- Model of the sibling walk of the heading tier: accumulate trimmed
non-empty text of answer elements and bare text nodes, stop at the next
heading, skip other elements. -/
def collectAnswerParts : List SibNode → List String
  | [] => []
  | SibNode.element tag text :: rest =>
    if tag ∈ answerStopTags then []
    else if tag ∈ answerTags then
      (if jsTrim text ≠ "" then [jsTrim text] else []) ++ collectAnswerParts rest
    else collectAnswerParts rest
  | SibNode.textNode text :: rest =>
    (if jsTrim text ≠ "" then [jsTrim text] else []) ++ collectAnswerParts rest

/-- Model of extractFaqHeadings: every level-2/3/4 heading whose trimmed
text looks like a question contributes a pair when the accumulated answer,
joined with blank lines and trimmed, is non-empty. -/
def extractFaqHeadings (headings : List Heading) : List FaqItem :=
  headings.flatMap (fun h =>
    if looksLikeQuestion (jsTrim h.text) then
      if jsTrim (String.intercalate "\n\n" (collectAnswerParts h.following)) ≠ "" then
        [⟨jsTrim h.text,
          jsTrim (String.intercalate "\n\n" (collectAnswerParts h.following))⟩]
      else []
    else [])

/-- Parsed HTML document as the three FAQ tiers read it: the FAQ-page
microdata roots, the structured-data script blocks (already JSON-parsed,
none for blank or invalid bodies), and the level-2/3/4 headings with
their following siblings. -/
structure HtmlDoc where
  faqRoots : List FaqRoot
  ldScripts : List (Option Json)
  headings : List Heading

/-- Model of extractFaqItemsFromHtml: microdata first, then JSON-LD, then
the heading heuristic; the first tier with a non-zero item count is
returned. -/
def extractFaqItemsFromHtml (doc : HtmlDoc) : List FaqItem :=
  if (extractFaqSchemaMicrodata doc.faqRoots).length ≠ 0 then
    extractFaqSchemaMicrodata doc.faqRoots
  else if (extractFaqSchemaLdJson doc.ldScripts).length ≠ 0 then
    extractFaqSchemaLdJson doc.ldScripts
  else extractFaqHeadings doc.headings

lemma walkElems_eq_flatMap (xs : List Json) : walkElems xs = xs.flatMap walk := by
  induction xs with
  | nil => rfl
  | cons j rest ih => rw [walkElems, List.flatMap_cons, ih]

lemma walkFields_eq_flatMap (fields : List (String × Json)) :
    walkFields fields = fields.flatMap (fun p => walk p.2) := by
  induction fields with
  | nil => rfl
  | cons p rest ih =>
    obtain ⟨k, v⟩ := p
    rw [walkFields, List.flatMap_cons, ih]

lemma walk_arr (xs : List Json) : walk (Json.arr xs) = xs.flatMap walk :=
  walkElems_eq_flatMap xs

lemma walk_obj (fields : List (String × Json)) :
    walk (Json.obj fields) =
      (if nodeHasType (Json.obj fields) "faqpage" then
        match firstTruthy [jsGet fields "mainEntity", jsGet fields "mainEntityOfPage",
            jsGet fields "mainEntityOfPageList"] with
        | none => []
        | some ent =>
          (match ent with
            | .arr xs => xs
            | e => [e]).flatMap (fun e =>
            if nodeHasType e "question" then handleQuestion e else [])
      else if nodeHasType (Json.obj fields) "question" then
        handleQuestion (Json.obj fields)
      else []) ++
      fields.flatMap (fun p => walk p.2) := by
  conv_rhs => rw [← walkFields_eq_flatMap]
  rfl

lemma dedupe_foldl_spec (l : List FaqItem) :
    ∀ acc : List String × List FaqItem,
      (∀ k, k ∈ acc.1 ↔ k ∈ acc.2.map faqKey) →
      (acc.2.map faqKey).Nodup →
      (∀ k, k ∈ (l.foldl dedupeStep acc).1 ↔
        k ∈ (l.foldl dedupeStep acc).2.map faqKey) ∧
      ((l.foldl dedupeStep acc).2.map faqKey).Nodup ∧
      (∀ x, x ∈ (l.foldl dedupeStep acc).2 → x ∈ acc.2 ∨ x ∈ l) ∧
      (∀ x, x ∈ acc.2 → x ∈ (l.foldl dedupeStep acc).2) ∧
      (∀ k, k ∈ acc.1 → k ∈ (l.foldl dedupeStep acc).1) ∧
      (∀ x, x ∈ l → faqKey x ∈ (l.foldl dedupeStep acc).1) := by
  induction l with
  | nil =>
    intro acc hiff hnd
    refine ⟨hiff, hnd, ?_, ?_, ?_, ?_⟩
    · intro x hx; exact Or.inl hx
    · intro x hx; exact hx
    · intro k hk; exact hk
    · intro x hx; simp at hx
  | cons i rest ih =>
    intro acc hiff hnd
    rw [List.foldl_cons]
    by_cases hseen : faqKey i ∈ acc.1
    · have hstep : dedupeStep acc i = acc := by
        unfold dedupeStep
        rw [if_pos hseen]
      rw [hstep]
      obtain ⟨a1, a2, a3, a4, a5, a6⟩ := ih acc hiff hnd
      refine ⟨a1, a2, ?_, a4, a5, ?_⟩
      · intro x hx
        rcases a3 x hx with h | h
        · exact Or.inl h
        · exact Or.inr (List.mem_cons_of_mem i h)
      · intro x hx
        rcases List.mem_cons.mp hx with rfl | h
        · exact a5 _ hseen
        · exact a6 x h
    · have hstep : dedupeStep acc i = (faqKey i :: acc.1, acc.2 ++ [i]) := by
        unfold dedupeStep
        rw [if_neg hseen]
      rw [hstep]
      have hiff2 : ∀ k, k ∈ faqKey i :: acc.1 ↔ k ∈ (acc.2 ++ [i]).map faqKey := by
        intro k
        rw [List.map_append, List.mem_append]
        simp only [List.mem_cons, List.map_cons, List.map_nil, List.mem_singleton]
        rw [hiff k]
        tauto
      have hnd2 : ((acc.2 ++ [i]).map faqKey).Nodup := by
        rw [List.map_append]
        rw [List.nodup_append]
        refine ⟨hnd, by simp, ?_⟩
        intro k hk hk2
        simp only [List.map_cons, List.map_nil, List.mem_singleton] at hk2
        subst hk2
        exact hseen ((hiff _).mpr hk)
      obtain ⟨a1, a2, a3, a4, a5, a6⟩ :=
        ih (faqKey i :: acc.1, acc.2 ++ [i]) hiff2 hnd2
      refine ⟨a1, a2, ?_, ?_, ?_, ?_⟩
      · intro x hx
        rcases a3 x hx with h | h
        · rcases List.mem_append.mp h with h2 | h2
          · exact Or.inl h2
          · rcases List.mem_singleton.mp h2 with rfl
            exact Or.inr (List.mem_cons_self x rest)
        · exact Or.inr (List.mem_cons_of_mem i h)
      · intro x hx
        exact a4 x (List.mem_append_left _ hx)
      · intro k hk
        exact a5 k (List.mem_cons_of_mem _ hk)
      · intro x hx
        rcases List.mem_cons.mp hx with rfl | h
        · exact a5 _ (List.mem_cons_self _ _)
        · exact a6 x h

lemma dedupeFaqs_spec (l : List FaqItem) :
    ((dedupeFaqs l).map faqKey).Nodup ∧
    (∀ x, x ∈ dedupeFaqs l → x ∈ l) ∧
    (∀ x, x ∈ l → ∃ j, j ∈ dedupeFaqs l ∧ faqKey j = faqKey x) := by
  obtain ⟨a1, a2, a3, _, _, a6⟩ :=
    dedupe_foldl_spec l ([], []) (by simp) (by simp)
  refine ⟨a2, ?_, ?_⟩
  · intro x hx
    rcases a3 x hx with h | h
    · simp at h
    · exact h
  · intro x hx
    have hk := (a1 (faqKey x)).mp (a6 x hx)
    rcases List.mem_map.mp hk with ⟨j, hj, hjk⟩
    exact ⟨j, hj, hjk⟩

/-- Claim C9 counterexample input: one structured-data script whose root
array holds two questions — question "a|||b" answered "c" and question
"a" answered "b|||c" — whose composite dedup keys collide. -/
def exQ1 : Json :=
  Json.obj [("@type", Json.str "Question"), ("name", Json.str "a|||b"),
    ("acceptedAnswer", Json.obj [("text", Json.str "c")])]

/-- Second colliding question of the C9 counterexample input. -/
def exQ2 : Json :=
  Json.obj [("@type", Json.str "Question"), ("name", Json.str "a"),
    ("acceptedAnswer", Json.obj [("text", Json.str "b|||c")])]

/-- Root array of the C9 counterexample script. -/
def exLdJsonPair : Json := Json.arr [exQ1, exQ2]

/-- The JSON-LD dedup claim fails as stated: dedup keys are the question
and answer joined with a three-bar separator, so the two distinct
collected pairs (question "a|||b", answer "c") and (question "a", answer
"b|||c") share one key; the second collected pair is dropped from the
returned list although its question differs from the kept pair's, so not
every distinct collected pair appears, and pairs differing in a component
are not always both kept. -/
theorem ldJson_pair_dedup_counterexample :
    extractFaqsFromLdJsonObject exLdJsonPair =
      [⟨"a|||b", "c"⟩, ⟨"a", "b|||c"⟩] ∧
    extractFaqSchemaLdJson [some exLdJsonPair] = [⟨"a|||b", "c"⟩] ∧
    (⟨"a", "b|||c"⟩ : FaqItem) ≠ ⟨"a|||b", "c"⟩ ∧
    (⟨"a", "b|||c"⟩ : FaqItem) ∉ extractFaqSchemaLdJson [some exLdJsonPair] := by
  refine ⟨by decide, by decide, by decide, by decide⟩

/-- Amended claim for the JSON-LD dedup: deduplication is by exact
equality of the composite key question-bars-answer; the returned list has
pairwise distinct keys (hence no two returned items agree on both
question and answer), every returned item is a collected pair, and every
collected pair is represented by exactly one returned item with the same
key — which restricted to pairs free of the three-bar separator is
dedup by exact (question, answer) equality, but two distinct collected
pairs whose keys collide are identified. -/
theorem extractFaqSchemaLdJson_dedup_spec (scripts : List (Option Json)) :
    ((extractFaqSchemaLdJson scripts).map faqKey).Nodup ∧
    (∀ i, i ∈ extractFaqSchemaLdJson scripts →
      ∀ j, j ∈ extractFaqSchemaLdJson scripts → faqKey i = faqKey j → i = j) ∧
    (∀ i, i ∈ extractFaqSchemaLdJson scripts → i ∈ collectedFaqs scripts) ∧
    (∀ i, i ∈ collectedFaqs scripts →
      ∃ j, j ∈ extractFaqSchemaLdJson scripts ∧ faqKey j = faqKey i) := by
  obtain ⟨a1, a2, a3⟩ := dedupeFaqs_spec (collectedFaqs scripts)
  refine ⟨a1, ?_, a2, a3⟩
  intro i hi j hj hk
  exact List.inj_on_of_nodup_map a1 hi hj hk

/-- Witness for the amended JSON-LD dedup claim on the colliding-pairs
script: the dropped collected pair is still represented in the returned
list by a key-equal item. -/
theorem extractFaqSchemaLdJson_dedup_spec_witness :
    (⟨"a", "b|||c"⟩ : FaqItem) ∈ collectedFaqs [some exLdJsonPair] ∧
    ∃ j, j ∈ extractFaqSchemaLdJson [some exLdJsonPair] ∧
      faqKey j = faqKey ⟨"a", "b|||c"⟩ := by
  have hc : (⟨"a", "b|||c"⟩ : FaqItem) ∈ collectedFaqs [some exLdJsonPair] := by
    decide
  exact ⟨hc, (extractFaqSchemaLdJson_dedup_spec [some exLdJsonPair]).2.2.2
    ⟨"a", "b|||c"⟩ hc⟩

lemma mem_ite_singleton {α : Type} {c : Prop} [Decidable c] {a x : α}
    (h : a ∈ (if c then [x] else [])) : c ∧ a = x := by
  by_cases hc : c
  · rw [if_pos hc] at h
    exact ⟨hc, List.mem_singleton.mp h⟩
  · rw [if_neg hc] at h
    simp at h

lemma handleQuestion_shape (q : Json) (item : FaqItem)
    (h : item ∈ handleQuestion q) :
    ∃ qT aT, qT ≠ "" ∧ aT ≠ "" ∧ item = ⟨jsTrim qT, jsTrim aT⟩ := by
  unfold handleQuestion at h
  cases q with
  | str s => simp at h
  | num n => simp at h
  | bool b => simp at h
  | null => simp at h
  | arr xs =>
    rcases List.mem_flatMap.mp h with ⟨ansObj, _, hitem⟩
    cases ansObj with
    | str s => simp at hitem
    | num n => simp at hitem
    | bool b => simp at hitem
    | null => simp at hitem
    | arr ys =>
      obtain ⟨hc, rfl⟩ := mem_ite_singleton hitem
      exact ⟨_, _, hc.1, hc.2, rfl⟩
    | obj fs =>
      obtain ⟨hc, rfl⟩ := mem_ite_singleton hitem
      exact ⟨_, _, hc.1, hc.2, rfl⟩
  | obj fields =>
    rcases List.mem_flatMap.mp h with ⟨ansObj, _, hitem⟩
    cases ansObj with
    | str s => simp at hitem
    | num n => simp at hitem
    | bool b => simp at hitem
    | null => simp at hitem
    | arr ys =>
      obtain ⟨hc, rfl⟩ := mem_ite_singleton hitem
      exact ⟨_, _, hc.1, hc.2, rfl⟩
    | obj fs =>
      obtain ⟨hc, rfl⟩ := mem_ite_singleton hitem
      exact ⟨_, _, hc.1, hc.2, rfl⟩

lemma walk_shape :
    ∀ (n : Nat) (j : Json), sizeOf j < n → ∀ item ∈ walk j,
      ∃ qT aT, qT ≠ "" ∧ aT ≠ "" ∧ item = ⟨jsTrim qT, jsTrim aT⟩ := by
  intro n
  induction n with
  | zero => intro j hj; omega
  | succ n ih =>
    intro j hj item hitem
    cases j with
    | str s => simp [walk] at hitem
    | num m => simp [walk] at hitem
    | bool b => simp [walk] at hitem
    | null => simp [walk] at hitem
    | arr xs =>
      rw [walk_arr] at hitem
      rcases List.mem_flatMap.mp hitem with ⟨x, hx, hitem2⟩
      have hsz : sizeOf x < n := by
        have h1 := List.sizeOf_lt_of_mem hx
        have h2 : sizeOf (Json.arr xs) = 1 + sizeOf xs := by simp
        omega
      exact ih x hsz item hitem2
    | obj fields =>
      rw [walk_obj] at hitem
      rcases List.mem_append.mp hitem with hL | hR
      · by_cases hfp : nodeHasType (Json.obj fields) "faqpage" = true
        · rw [if_pos hfp] at hL
          cases hft : firstTruthy [jsGet fields "mainEntity",
              jsGet fields "mainEntityOfPage", jsGet fields "mainEntityOfPageList"] with
          | none => rw [hft] at hL; simp at hL
          | some ent =>
            rw [hft] at hL
            rcases List.mem_flatMap.mp hL with ⟨e, _, hitem2⟩
            by_cases hq : nodeHasType e "question" = true
            · rw [if_pos hq] at hitem2
              exact handleQuestion_shape e item hitem2
            · rw [if_neg hq] at hitem2
              simp at hitem2
        · rw [if_neg hfp] at hL
          by_cases hq : nodeHasType (Json.obj fields) "question" = true
          · rw [if_pos hq] at hL
            exact handleQuestion_shape _ item hL
          · rw [if_neg hq] at hL
            simp at hL
      · rcases List.mem_flatMap.mp hR with ⟨p, hp, hitem2⟩
        have hsz : sizeOf p.2 < n := by
          have h1 := List.sizeOf_lt_of_mem hp
          have h2 : sizeOf (Json.obj fields) = 1 + sizeOf fields := by simp
          have h3 : sizeOf p.2 < sizeOf p := by
            obtain ⟨a, b⟩ := p
            simp
          omega
        exact ih p.2 hsz item hitem2

/-- Claim C8 counterexample input: a question whose name is a whitespace
string — truthy in JavaScript, empty after trimming. -/
def exWhitespaceName : Json :=
  Json.obj [("@type", Json.str "Question"), ("name", Json.str " "),
    ("acceptedAnswer", Json.obj [("text", Json.str "An answer")])]

/-- The non-emptiness claim fails as stated for the JSON-LD tier: the
source checks the question and answer texts for truthiness before
trimming and then stores the trimmed texts, so a whitespace-only name
yields a FaqItem whose question is the empty string. -/
theorem faqItem_nonempty_counterexample :
    extractFaqSchemaLdJson [some exWhitespaceName] = [⟨"", "An answer"⟩] ∧
    FaqItem.question ⟨"", "An answer"⟩ = "" := by
  exact ⟨by decide, rfl⟩

/-- Amended claim for FaqItem non-emptiness: items built by the microdata
and heading tiers always carry a non-empty question and answer, while
items built by the JSON-LD tier are the trimmed forms of texts that were
non-empty before trimming — so a whitespace-only source text yields an
empty component there, and non-emptiness holds exactly when the source
texts are non-empty after trimming. -/
theorem faqItem_nonempty_amended :
    (∀ (faqRoots : List FaqRoot) (item : FaqItem),
      item ∈ extractFaqSchemaMicrodata faqRoots →
      item.question ≠ "" ∧ item.answer ≠ "") ∧
    (∀ (headings : List Heading) (item : FaqItem),
      item ∈ extractFaqHeadings headings →
      item.question ≠ "" ∧ item.answer ≠ "") ∧
    (∀ (scripts : List (Option Json)) (item : FaqItem),
      item ∈ extractFaqSchemaLdJson scripts →
      ∃ qT aT, qT ≠ "" ∧ aT ≠ "" ∧ item = ⟨jsTrim qT, jsTrim aT⟩) := by
  refine ⟨?_, ?_, ?_⟩
  · intro faqRoots item hmem
    unfold extractFaqSchemaMicrodata at hmem
    rcases List.mem_flatMap.mp hmem with ⟨root, _, h2⟩
    rcases List.mem_flatMap.mp h2 with ⟨ent, _, h3⟩
    by_cases hc : jsTrim ent.nameText ≠ "" ∧ jsTrim ent.textText ≠ ""
    · rw [if_pos hc] at h3
      rcases List.mem_singleton.mp h3 with rfl
      exact hc
    · rw [if_neg hc] at h3
      simp at h3
  · intro headings item hmem
    unfold extractFaqHeadings at hmem
    rcases List.mem_flatMap.mp hmem with ⟨h, _, h2⟩
    by_cases hq : looksLikeQuestion (jsTrim h.text) = true
    · rw [if_pos hq] at h2
      by_cases ha : jsTrim (String.intercalate "\n\n"
          (collectAnswerParts h.following)) ≠ ""
      · rw [if_pos ha] at h2
        rcases List.mem_singleton.mp h2 with rfl
        refine ⟨?_, ha⟩
        intro habs
        have habs2 : jsTrim h.text = "" := habs
        rw [habs2] at hq
        exact absurd hq (by decide)
      · rw [if_neg ha] at h2
        simp at h2
    · rw [if_neg hq] at h2
      simp at h2
  · intro scripts item hmem
    have hcol := (extractFaqSchemaLdJson_dedup_spec scripts).2.2.1 item hmem
    unfold collectedFaqs at hcol
    rcases List.mem_flatMap.mp hcol with ⟨s, _, h2⟩
    cases s with
    | none => simp at h2
    | some d =>
      have h3 : item ∈ walk d := h2
      exact walk_shape (sizeOf d + 1) d (by omega) item h3

/-- Witness for the amended non-emptiness claim on concrete inputs for
each tier. -/
theorem faqItem_nonempty_amended_witness :
    ((⟨"Q?", "A1"⟩ : FaqItem) ∈
        extractFaqSchemaMicrodata [⟨[⟨" Q? ", "A1"⟩], []⟩] ∧
      ("Q?" : String) ≠ "" ∧ ("A1" : String) ≠ "") ∧
    ((⟨"What is it?", "An answer"⟩ : FaqItem) ∈
        extractFaqHeadings
          [⟨"What is it?", [SibNode.element "p" "An answer"]⟩] ∧
      ("What is it?" : String) ≠ "" ∧ ("An answer" : String) ≠ "") ∧
    (∃ qT aT, qT ≠ "" ∧ aT ≠ "" ∧
      (⟨"", "An answer"⟩ : FaqItem) = ⟨jsTrim qT, jsTrim aT⟩) := by
  refine ⟨⟨by decide, ?_⟩, ⟨by decide, ?_⟩, ?_⟩
  · exact ((faqItem_nonempty_amended).1 [⟨[⟨" Q? ", "A1"⟩], []⟩] ⟨"Q?", "A1"⟩
      (by decide))
  · exact ((faqItem_nonempty_amended).2.1
      [⟨"What is it?", [SibNode.element "p" "An answer"]⟩]
      ⟨"What is it?", "An answer"⟩ (by decide))
  · apply (faqItem_nonempty_amended).2.2 [some exWhitespaceName] ⟨"", "An answer"⟩
    have hmem : extractFaqSchemaLdJson [some exWhitespaceName] =
        [⟨"", "An answer"⟩] := by decide
    rw [hmem]
    decide

/-- Claim C2 (code bug): the microdata tier never consults the
mainEntityOfPage selector.  The source joins the two querySelectorAll
results with a logical or, but querySelectorAll returns a NodeList object
and every object is truthy in JavaScript, so the expression always
evaluates to the first (possibly empty) list and the second selector is
dead code: a FAQ-page root with no mainEntity entities and a well-formed
mainEntityOfPage entity yields no items, against the claim (and the
fallback reading the spec recommends). -/
theorem extractFaqSchemaMicrodata_secondary_dead :
    (∀ a b : List MicroEntity, jsOrNodeList a b = a) ∧
    extractFaqSchemaMicrodata [⟨[], [⟨"What is it?", "An answer"⟩]⟩] = [] ∧
    extractFaqSchemaMicrodata
      [⟨[⟨"Q1?", "A1"⟩], [⟨"What is it?", "An answer"⟩]⟩] = [⟨"Q1?", "A1"⟩] :=
  ⟨fun a b => rfl, by decide, by decide⟩

/-- Claim C1: the three extraction tiers are tried in order — microdata,
then JSON-LD, then the heading heuristic — and the first tier yielding at
least one item is returned unchanged; the result always equals the output
of exactly one tier, so items of two tiers are never merged, and in
particular a document with both microdata items and heading items yields
only the microdata items. -/
theorem extractFaqItemsFromHtml_tiering (doc : HtmlDoc) :
    (extractFaqSchemaMicrodata doc.faqRoots ≠ [] →
      extractFaqItemsFromHtml doc = extractFaqSchemaMicrodata doc.faqRoots) ∧
    (extractFaqSchemaMicrodata doc.faqRoots = [] →
      extractFaqSchemaLdJson doc.ldScripts ≠ [] →
      extractFaqItemsFromHtml doc = extractFaqSchemaLdJson doc.ldScripts) ∧
    (extractFaqSchemaMicrodata doc.faqRoots = [] →
      extractFaqSchemaLdJson doc.ldScripts = [] →
      extractFaqItemsFromHtml doc = extractFaqHeadings doc.headings) ∧
    (extractFaqItemsFromHtml doc = extractFaqSchemaMicrodata doc.faqRoots ∨
     extractFaqItemsFromHtml doc = extractFaqSchemaLdJson doc.ldScripts ∨
     extractFaqItemsFromHtml doc = extractFaqHeadings doc.headings) := by
  have hlen : ∀ l : List FaqItem, l ≠ [] → l.length ≠ 0 := by
    intro l h hl
    exact h (List.length_eq_zero.mp hl)
  refine ⟨?_, ?_, ?_, ?_⟩
  · intro h
    unfold extractFaqItemsFromHtml
    rw [if_pos (hlen _ h)]
  · intro h1 h2
    unfold extractFaqItemsFromHtml
    rw [if_neg (by rw [h1]; exact fun habs => habs rfl), if_pos (hlen _ h2)]
  · intro h1 h2
    unfold extractFaqItemsFromHtml
    rw [if_neg (by rw [h1]; exact fun habs => habs rfl),
      if_neg (by rw [h2]; exact fun habs => habs rfl)]
  · unfold extractFaqItemsFromHtml
    by_cases hm : (extractFaqSchemaMicrodata doc.faqRoots).length ≠ 0
    · rw [if_pos hm]
      exact Or.inl rfl
    · rw [if_neg hm]
      by_cases hl : (extractFaqSchemaLdJson doc.ldScripts).length ≠ 0
      · rw [if_pos hl]
        exact Or.inr (Or.inl rfl)
      · rw [if_neg hl]
        exact Or.inr (Or.inr rfl)

/-- Document of the tiering witness: valid microdata FAQ markup and a
qualifying heading-style pair in the same document. -/
def exampleTieringDoc : HtmlDoc :=
  ⟨[⟨[⟨"Q1?", "A1"⟩], []⟩], [],
   [⟨"What is it?", [SibNode.element "p" "An answer"]⟩]⟩

/-- Witness for the tiering claim: on a document carrying both microdata
items and heading items, the result is exactly the microdata items. -/
theorem extractFaqItemsFromHtml_tiering_witness :
    extractFaqSchemaMicrodata exampleTieringDoc.faqRoots = [⟨"Q1?", "A1"⟩] ∧
    extractFaqHeadings exampleTieringDoc.headings =
      [⟨"What is it?", "An answer"⟩] ∧
    extractFaqItemsFromHtml exampleTieringDoc = [⟨"Q1?", "A1"⟩] :=
  ⟨by decide, by decide, by
    rw [(extractFaqItemsFromHtml_tiering exampleTieringDoc).1 (by decide)]
    decide⟩

end Llmsgen
